import Mathlib

/-!
Shallow embedding of the content-moderation filter pipeline from
`bot/cogs/filtering.py` and `bot/utils/time.py`.

Conventions used throughout:
* Wall-clock instants are integers.  In the deferred-deletion / edit-delta
  parts they are microseconds since the UNIX epoch (the precision of Python
  `datetime`); in the cooldown part they are seconds since the epoch (the
  unit of Python `datetime.timestamp()`).  Each definition's doc comment
  says which unit it uses.
* `asyncio.sleep` is modelled as an exact sleep: a coroutine that sleeps
  for `d` starting at instant `t` resumes at instant `t + d`.
* Fallible Python code is modelled with `Except`; a raised exception is an
  `Except.error` value.
-/

namespace BotFiltering

/-! ### `bot/utils/time.py`: `wait_until` (lines 96-108) -/

/--
`wait_until(time, start)` from `bot/utils/time.py`.  Both arguments are
microseconds since the epoch; `start` is the instant at which the coroutine
runs (the code defaults it to `datetime.datetime.utcnow()`).  The code
computes `delay = time - start` and calls `asyncio.sleep` only when
`delay.total_seconds() > 1.0`, i.e. when the delay exceeds 1 000 000
microseconds.  The value returned here is the instant at which the coroutine
resumes: `start + delay = time` when it sleeps, `start` when it does not.
-/
def wait_until_wake (time start : Int) : Int :=
  let delay := time - start
  if delay > 1000000 then start + delay else start

/--
`Filtering._scheduled_task` (`filtering.py` lines 472-477): parse the
record's `delete_date`, `await wait_until(delete_at)`, then delete the
message.  Given the record's delete-at instant and the instant `now` at
which the task starts running, this is the instant at which the deletion of
the flagged message is performed (times in microseconds since the epoch).
-/
def scheduled_task_delete_time (delete_at now : Int) : Int :=
  wait_until_wake delete_at now

/-! ### `filtering.py` startup recovery (lines 479-492) -/

/-- A pending offensive-message record as stored by the external API
(`{id, channel_id, delete_date}`); `delete_at` is the parsed `delete_date`
in microseconds since the epoch. -/
structure PendingDeletion where
  id : Int
  channel_id : Int
  delete_at : Int
deriving DecidableEq, Repr

/-- What startup recovery does with one record. -/
inductive RecoveryAction where
  | deleteNow (id : Int)
  | scheduleLater (id : Int) (delete_at : Int)
deriving DecidableEq, Repr

/-- A raised Python exception, as far as this embedding needs to
distinguish them. -/
inductive PyExc where
  | attributeError (obj attr : String)
deriving DecidableEq, Repr

/--
The attributes of Python's `datetime.datetime` class that this module
touches.  Line 4 of `filtering.py` is `from datetime import datetime,
timedelta`, so inside `filtering.py` the name `datetime` is bound to the
`datetime.datetime` *class* (not the `datetime` module).  The class has no
attribute named `datetime`.
-/
def datetime_class_attrs : List String :=
  ["utcnow", "utcfromtimestamp", "fromtimestamp", "now", "timestamp",
   "isoformat", "replace"]

/--
`Filtering.reschedule_offensive_msg_deletion` (`filtering.py` lines
479-492).  The body first evaluates `now = datetime.datetime.utcnow()`
(line 484); since `datetime` names the class (see `datetime_class_attrs`),
the attribute access `datetime.datetime` raises `AttributeError` before any
record is examined.  Had the attribute existed, the loop would delete every
record whose `delete_at` is strictly before `now` and re-register every
other record with the scheduler, which is the `Except.ok` branch below.
-/
def reschedule_offensive_msg_deletion (records : List PendingDeletion)
    (now : Int) : Except PyExc (List RecoveryAction) :=
  if datetime_class_attrs.contains "datetime" then
    Except.ok (records.map fun m =>
      if m.delete_at < now then RecoveryAction.deleteNow m.id
      else RecoveryAction.scheduleLater m.id m.delete_at)
  else
    Except.error (PyExc.attributeError "datetime" "datetime")

/-! ### Username cooldown (`filtering.py` lines 49, 175-213) -/

/-- `DAYS_BETWEEN_ALERTS = 3` (`filtering.py` line 49). -/
def DAYS_BETWEEN_ALERTS : Int := 3

/--
`Filtering.check_send_alert` (`filtering.py` lines 175-183).  `now` is the
current time and `last` the cooldown-store entry for the member, both in
seconds since the epoch (the store holds `datetime.utcnow().timestamp()`
values; the `utcfromtimestamp` round-trip is the identity on them).  The
walrus `if last_alert := await self.name_alerts.get(member.id):` enters its
body only when the stored value is truthy, i.e. present and nonzero.
-/
def check_send_alert (now : Int) (last : Option Int) : Bool :=
  match last with
  | none => true
  | some la =>
    if la = 0 then true
    else if now - DAYS_BETWEEN_ALERTS * 86400 < la then false
    else true

/--
`Filtering.check_bad_words_in_name` (`filtering.py` lines 185-213), run
under `self.name_lock`.  `matches` is the result of `get_name_matches` on
the member's display name, `store` the cooldown entry for the member.
Returns (whether a moderation alert was emitted, the cooldown entry after
the call): on an alert the entry is overwritten with `now`, otherwise the
function returns before touching the store.
-/
def check_bad_words_in_name (now : Int) (name_matches : List String)
    (store : Option Int) : Bool × Option Int :=
  if name_matches.isEmpty then (false, store)
  else if check_send_alert now store = false then (false, store)
  else (true, some now)

/-! ### Spoiler expansion (`filtering.py` lines 37, 52-57) -/

/-- Does the character list begin with the two characters `||`? -/
def double_bar_at (cs : List Char) : Bool :=
  match cs with
  | '|' :: '|' :: _ => true
  | _ => false

/-- Index of the first position of `cs` at which `||` occurs, if any. -/
def find_double_bar : List Char → Option Nat
  | [] => none
  | c :: rest =>
    if double_bar_at (c :: rest) then some 0
    else (find_double_bar rest).map (· + 1)

/--
Length of the match of `SPOILER_RE = (\|\|.+?\|\|)` (with `re.DOTALL`) at
the head of `cs`, if the regex matches there.  The pattern is `||`, then a
shortest nonempty run of arbitrary characters, then `||`; so a match exists
exactly when `cs` begins with `||` and a further `||` occurs at offset
at least 3.  With `j` the distance from offset 3 to that earliest closing
`||`, the whole match has length `2 + (j + 1) + 2 = j + 5` (opening bars,
body of length `j + 1`, closing bars).
-/
def spoiler_matchLen (cs : List Char) : Option Nat :=
  match cs with
  | '|' :: '|' :: _ :: rest2 => (find_double_bar rest2).map (· + 5)
  | _ => none

/-- First match of `SPOILER_RE` in `cs`, scanning left to right as the
`re` engine does: `some (i, n)` means the first match starts at index `i`
and has length `n`. -/
def spoiler_findMatch : List Char → Option (Nat × Nat)
  | [] => none
  | c :: rest =>
    match spoiler_matchLen (c :: rest) with
    | some n => some (0, n)
    | none => (spoiler_findMatch rest).map (fun p => (p.1 + 1, p.2))

/--
`SPOILER_RE.split(text)`: because the pattern is a single capturing group,
`re.split` returns the interleaving
`[before m1, m1, between m1 and m2, m2, ..., after the last match]`.
`fuel` is a structural-recursion bound; every recursive step consumes at
least five characters, so `fuel = cs.length` never runs out, and the
fuel-exhausted fallback returns the remainder as a single segment.
-/
def spoiler_split_fuel : Nat → List Char → List String
  | 0, cs => [String.mk cs]
  | fuel + 1, cs =>
    match spoiler_findMatch cs with
    | none => [String.mk cs]
    | some (i, n) =>
      String.mk (cs.take i) :: String.mk ((cs.drop i).take n)
        :: spoiler_split_fuel fuel ((cs.drop i).drop n)

/-- `SPOILER_RE.split(text)` (see `spoiler_split_fuel`). -/
def spoiler_split (cs : List Char) : List String :=
  spoiler_split_fuel cs.length cs

/-- Python's `''.join` over a list of strings. -/
def str_join : List String → String
  | [] => ""
  | s :: rest => s ++ str_join rest

/-- Python slice `l[0::2]` (and, applied after `List.drop 1`, the slice
`l[1::2]`): every second element starting from the head. -/
def slice_step2 {α : Type} : List α → List α
  | [] => []
  | [x] => [x]
  | x :: _ :: rest => x :: slice_step2 rest

/--
`expand_spoilers` (`filtering.py` lines 52-57):
`''.join(split_text[0::2] + split_text[1::2] + split_text)` where
`split_text = SPOILER_RE.split(text)`.
-/
def expand_spoilers (text : String) : String :=
  let split_text := spoiler_split text.data
  str_join (slice_step2 split_text ++ slice_step2 (split_text.drop 1)
    ++ split_text)

/-! ### `URL_RE` and the rich-embed matcher (`filtering.py` lines 38, 442-459) -/

/-- The ASCII characters matched by Python's `\s` (three further control
characters and some Unicode spaces also match; they do not occur in any
text this development evaluates on). -/
def pyIsSpace (c : Char) : Bool :=
  c = ' ' || c = '\t' || c = '\n' || c = '\r' || c = '\x0b' || c = '\x0c'

/-- ASCII lower-casing, for `re.IGNORECASE` matching. -/
def charLower (c : Char) : Char :=
  if 'A' ≤ c && c ≤ 'Z' then Char.ofNat (c.toNat + 32) else c

/-- Does `cs` begin with the pattern characters `pat` (given lower-case),
compared case-insensitively? -/
def ciStartsWith : List Char → List Char → Bool
  | [], _ => true
  | _ :: _, [] => false
  | p :: ps, c :: cs => charLower c = p && ciStartsWith ps cs

/--
Length of the match of `URL_RE = (https?://[^\s]+)` (`re.IGNORECASE`) at
the head of `cs`, if it matches there: the literal `https://` or `http://`
(the greedy `s?` prefers the former) followed by a maximal nonempty run of
non-whitespace characters.
-/
def url_matchLen (cs : List Char) : Option Nat :=
  if ciStartsWith "https://".data cs then
    let body := ((cs.drop 8).takeWhile (fun c => !pyIsSpace c)).length
    if body ≥ 1 then some (8 + body) else none
  else if ciStartsWith "http://".data cs then
    let body := ((cs.drop 7).takeWhile (fun c => !pyIsSpace c)).length
    if body ≥ 1 then some (7 + body) else none
  else none

/--
`URL_RE.findall(text)`: scan left to right, at each position emit the match
starting there if any and resume after it, else advance one character.
`fuel` is a structural-recursion bound; every step consumes at least one
character, so `fuel = cs.length` never runs out (the exhausted fallback
returns no further matches).
-/
def url_findall_fuel : Nat → List Char → List String
  | 0, _ => []
  | fuel + 1, cs =>
    match url_matchLen cs with
    | some n => String.mk (cs.take n) :: url_findall_fuel fuel (cs.drop n)
    | none =>
      match cs with
      | [] => []
      | _ :: rest => url_findall_fuel fuel rest

/-- `URL_RE.findall(text)` (see `url_findall_fuel`). -/
def url_findall (cs : List Char) : List String :=
  url_findall_fuel cs.length cs

/-- A message embed, as far as the rich-embed matcher looks at it:
its `type` and its source `url` (`none` models both a missing and an empty
`url`, the two falsy cases of `not embed.url`). -/
structure Embed where
  type : String
  url : Option String
deriving DecidableEq, Repr

/--
`Filtering._has_rich_embed` (`filtering.py` lines 442-459) on a message
with embed list `embeds` and text `content`.  The loop walks the embeds in
order, skips non-`"rich"` ones, and *returns* on the first `"rich"` embed:
`True` when that embed has no `url` or its `url` is not among
`URL_RE.findall(msg.content)`, `False` otherwise.
-/
def has_rich_embed (embeds : List Embed) (content : String) : Bool :=
  match embeds with
  | [] => false
  | e :: rest =>
    if e.type == "rich" then
      let urls := url_findall content.data
      match e.url with
      | none => true
      | some u => if urls.contains u then false else true
    else has_rich_embed rest content

/-! ### The invite scanner (`filtering.py` lines 26-35, 394-440) -/

/-- The `guild` object of the invite-lookup JSON response. -/
structure InviteGuild where
  id : Int
  name : String
  icon : String
deriving DecidableEq, Repr

/-- The JSON response of `GET {discord_invite_api}/{invite}?with_counts=true`;
a missing `guild` key (`none`) signals a group-DM, expired or invalid
invite. -/
structure InviteResponse where
  guild : Option InviteGuild
  approximate_member_count : Int
  approximate_presence_count : Int
deriving DecidableEq, Repr

/-- One entry of the `invite_data` dict built by `_has_invites`. -/
structure InviteData where
  name : String
  icon : String
  members : Int
  active : Int
deriving DecidableEq, Repr

/-- The guild icon URL built at `filtering.py` lines 428-431. -/
def guild_icon_url (guild_id : Int) (icon_hash : String) : String :=
  "https://cdn.discordapp.com/icons/" ++ toString guild_id ++ "/"
    ++ icon_hash ++ ".png?size=512"

/-- The value `_has_invites` returns: `invalid` is the bare `True` returned
for an unresolvable invite, `found` the nonempty `invite_data` dict, and
`noneFound` the `False` returned when the dict stays empty. -/
inductive InviteScanResult where
  | invalid
  | found (data : List (String × InviteData))
  | noneFound
deriving DecidableEq, Repr

/--
The `for invite in invites:` loop of `Filtering._has_invites`
(`filtering.py` lines 407-440).  `codes` is `INVITE_RE.findall` applied to
the backslash-stripped text, in order and with duplicates, and `lookup` is
the external invite-resolution endpoint (one call per evaluation of
`lookup`, recorded in the returned call list).  `acc` is the `invite_data`
dict built so far, as an insertion-ordered association list.  A code
already present as a key of `acc` is skipped; otherwise it is resolved: a
response without `guild` makes the whole scan return `True` at once, a
whitelisted guild adds nothing, and any other guild appends an entry to
`acc`.  Returns the scan result together with the codes passed to `lookup`,
in call order.
-/
def has_invites_go (lookup : String → InviteResponse) (whitelist : List Int) :
    List String → List (String × InviteData) →
    InviteScanResult × List String
  | [], acc =>
    (if acc.isEmpty then InviteScanResult.noneFound
     else InviteScanResult.found acc, [])
  | c :: rest, acc =>
    if acc.any (fun p => p.1 == c) then
      has_invites_go lookup whitelist rest acc
    else
      let resp := lookup c
      match resp.guild with
      | none => (InviteScanResult.invalid, [c])
      | some g =>
        if whitelist.contains g.id then
          let r := has_invites_go lookup whitelist rest acc
          (r.1, c :: r.2)
        else
          let r := has_invites_go lookup whitelist rest
            (acc ++ [(c, ⟨g.name, guild_icon_url g.id g.icon,
                          resp.approximate_member_count,
                          resp.approximate_presence_count⟩)])
          (r.1, c :: r.2)

/-- `Filtering._has_invites` (`filtering.py` lines 394-440), starting from
the empty `invite_data` dict.  The upstream regex extraction
(`text.replace("\\", "")` followed by `INVITE_RE.findall`) is abstracted as
the input list `codes`. -/
def has_invites (lookup : String → InviteResponse) (whitelist : List Int)
    (codes : List String) : InviteScanResult × List String :=
  has_invites_go lookup whitelist codes []

/-! ### The dispatch engine (`filtering.py` lines 68-140, 147-164, 215-349)

The rule table of `Filtering.__init__` and the loop of
`Filtering._filter_message`.  The configuration constants read from
`bot.constants.Filter` are external static input data and appear as the
`FilterConf` parameter.  The individual matchers perform network calls and
use configured regexes, so for the dispatch loop their outcomes for the one
message being processed are abstracted as `oracle : String → Bool` (rule
name ↦ whether that rule's `function` reports a match on this message);
likewise `deleteNotFound : Bool` says whether the single `msg.delete()`
call of this event raises `discord.errors.NotFound`.  The observable
behaviour of one `_filter_message` call is the list of `FilterAction`s it
performs, in order. -/

/-- The message author, as far as the exemption check looks at it:
`isMember` is `type(msg.author) is Member` (only members carry roles). -/
structure FilterAuthor where
  isMember : Bool
  role_ids : List Int
  bot : Bool
deriving DecidableEq, Repr

/-- An incoming message, as far as the dispatch engine looks at it
(`created_at` in microseconds since the epoch). -/
structure FilterMessage where
  id : Int
  channel_id : Int
  channel_is_private : Bool
  created_at : Int
  author : FilterAuthor
deriving DecidableEq, Repr

/-- The `bot.constants.Filter` configuration values the dispatch engine
reads (static input data). -/
structure FilterConf where
  channel_whitelist : List Int
  role_whitelist : List Int
  filter_zalgo : Bool
  filter_invites : Bool
  filter_domains : Bool
  watch_regex : Bool
  watch_rich_embeds : Bool
  watch_words : Bool
  watch_tokens : Bool
  notify_user_zalgo : Bool
  notify_user_invites : Bool
  notify_user_domains : Bool
  offensive_msg_delete_days : Int
deriving DecidableEq, Repr

/-- One entry of the `self.filters` dict (`filtering.py` lines 75-138).
The `user_notification` and `schedule_deletion` fields are `Option`s
because not every entry of the source dict carries those keys; accessing a
missing key raises `KeyError`. -/
structure FilterRule where
  name : String
  enabled : Bool
  ftype : String
  content_only : Bool
  user_notification : Option Bool
  schedule_deletion : Option Bool
deriving DecidableEq, Repr

/-- The `self.filters` rule table, in its declaration order
(`filtering.py` lines 75-138).  Note that the `"watch_regex"` entry (lines
111-116) carries neither a `user_notification` nor a `schedule_deletion`
key, and the watchlist entries carry no `user_notification` key. -/
def filters (cfg : FilterConf) : List FilterRule :=
  [⟨"filter_zalgo", cfg.filter_zalgo, "filter", true,
      some cfg.notify_user_zalgo, some false⟩,
   ⟨"filter_invites", cfg.filter_invites, "filter", true,
      some cfg.notify_user_invites, some false⟩,
   ⟨"filter_domains", cfg.filter_domains, "filter", true,
      some cfg.notify_user_domains, some false⟩,
   ⟨"watch_regex", cfg.watch_regex, "watchlist", true, none, none⟩,
   ⟨"watch_rich_embeds", cfg.watch_rich_embeds, "watchlist", false,
      none, some false⟩,
   ⟨"watch_words", cfg.watch_words, "watchlist", true, none, some true⟩,
   ⟨"watch_tokens", cfg.watch_tokens, "watchlist", true, none, some true⟩]

/-- `OFFENSIVE_MSG_DELETE_TIME = timedelta(days=Filter.offensive_msg_delete_days)`
(`filtering.py` line 59), in microseconds. -/
def OFFENSIVE_MSG_DELETE_TIME (days : Int) : Int := days * 86400000000

/-- An observable step taken by `_filter_message`, tagged with the rule it
belongs to. -/
inductive FilterAction where
  | eval (rule : String)
  | suppress (rule : String)
  | deleteMsg (rule : String)
  | notify (rule : String)
  | storePost (rule : String) (id : Int) (delete_at : Int)
  | scheduleTask (rule : String) (id : Int) (delete_at : Int)
  | modLog (rule : String)
  | keyError (rule : String) (key : String)
deriving DecidableEq, Repr

/-- The double-trigger check (`filtering.py` lines 236-241): the rule is
skipped with `continue` exactly when it is the rich-embed rule and the edit
delta is present and below 100. -/
def suppress_check (name : String) (delta : Option Int) : Bool :=
  name == "watch_rich_embeds"
    && (match delta with
        | some d => decide (d < 100)
        | none => false)

/-- Lines 268-270: `if _filter["user_notification"]: await
self.notify_member(...)`.  Returns the actions of the block and whether it
completed without raising (a missing key raises `KeyError`). -/
def notify_actions (r : FilterRule) : List FilterAction × Bool :=
  match r.user_notification with
  | none => ([FilterAction.keyError r.name "user_notification"], false)
  | some b => (if b then [FilterAction.notify r.name] else [], true)

/-- Lines 272-284: `if _filter["schedule_deletion"] and not is_private:`
post the record to the API and register it with the scheduler.  Returns the
actions of the block and whether it completed without raising. -/
def schedule_actions (r : FilterRule) (msg : FilterMessage) (days : Int) :
    List FilterAction × Bool :=
  match r.schedule_deletion with
  | none => ([FilterAction.keyError r.name "schedule_deletion"], false)
  | some b =>
    if b && !msg.channel_is_private then
      let d := msg.created_at + OFFENSIVE_MSG_DELETE_TIME days
      ([FilterAction.storePost r.name msg.id d,
        FilterAction.scheduleTask r.name msg.id d], true)
    else ([], true)

/--
The `if match:` body (`filtering.py` lines 249-349) for the matched rule
`r`.  For a `"filter"`-type rule outside a private channel the message is
deleted first; a `NotFound` from the deletion (`deleteNotFound = true`)
makes the whole `_filter_message` call `return` at once, so nothing
follows the delete attempt.  Otherwise the user is notified when the rule
says so, the deferred deletion is stored and scheduled when the rule says
so (a missing dict key raises and aborts the event), and finally one
moderation-log message is sent.
-/
def match_actions (r : FilterRule) (msg : FilterMessage)
    (deleteNotFound : Bool) (days : Int) : List FilterAction :=
  if r.ftype == "filter" && !msg.channel_is_private then
    if deleteNotFound then [FilterAction.deleteMsg r.name]
    else
      let nb := notify_actions r
      if nb.2 then
        let sb := schedule_actions r msg days
        FilterAction.deleteMsg r.name :: nb.1 ++ sb.1
          ++ (if sb.2 then [FilterAction.modLog r.name] else [])
      else FilterAction.deleteMsg r.name :: nb.1
  else
    let sb := schedule_actions r msg days
    sb.1 ++ (if sb.2 then [FilterAction.modLog r.name] else [])

/--
The `for filter_name, _filter in self.filters.items():` loop
(`filtering.py` lines 233-349): rules are visited in declaration order,
disabled ones are skipped, the rich-embed rule is skipped under
`suppress_check`, and the first rule whose matcher reports a match runs
`match_actions` after which the loop stops (`break`, or `return` inside the
matched branch).
-/
def filter_rules_loop (oracle : String → Bool) (deleteNotFound : Bool)
    (msg : FilterMessage) (delta : Option Int) (days : Int) :
    List FilterRule → List FilterAction
  | [] => []
  | r :: rest =>
    if r.enabled then
      if suppress_check r.name delta then
        FilterAction.suppress r.name
          :: filter_rules_loop oracle deleteNotFound msg delta days rest
      else if oracle r.name then
        FilterAction.eval r.name :: match_actions r msg deleteNotFound days
      else
        FilterAction.eval r.name
          :: filter_rules_loop oracle deleteNotFound msg delta days rest
    else filter_rules_loop oracle deleteNotFound msg delta days rest

/-- Lines 218-223: the author holds a whitelisted role (only `Member`
authors have roles). -/
def role_whitelisted (cfg : FilterConf) (msg : FilterMessage) : Bool :=
  msg.author.isMember
    && msg.author.role_ids.any (fun rid => cfg.role_whitelist.contains rid)

/-- Lines 225-229: the message is subject to filtering (not exempt). -/
def filter_message_cond (cfg : FilterConf) (msg : FilterMessage) : Bool :=
  !cfg.channel_whitelist.contains msg.channel_id
    && !role_whitelisted cfg msg
    && !msg.author.bot

/-- `Filtering._filter_message` (`filtering.py` lines 215-349): exempt
messages are not filtered at all; the rest run the rule loop. -/
def filter_message (cfg : FilterConf) (oracle : String → Bool)
    (deleteNotFound : Bool) (msg : FilterMessage) (delta : Option Int) :
    List FilterAction :=
  if filter_message_cond cfg msg then
    filter_rules_loop oracle deleteNotFound msg delta
      cfg.offensive_msg_delete_days (filters cfg)
  else []

/-- `Filtering.on_message` (`filtering.py` lines 147-151): new messages are
dispatched with the default `delta = None`. -/
def on_message (cfg : FilterConf) (oracle : String → Bool)
    (deleteNotFound : Bool) (msg : FilterMessage) : List FilterAction :=
  filter_message cfg oracle deleteNotFound msg none

/-- `dateutil.relativedelta.relativedelta(a, b).microseconds` for instants
`a ≥ b` given in microseconds since the epoch: the *microseconds component*
of the normalised difference, i.e. the total difference modulo one million
— not the total elapsed time. -/
def relativedelta_microseconds (a b : Int) : Int := (a - b) % 1000000

/-- The `delta` computed by `Filtering.on_message_edit` (`filtering.py`
lines 153-164): against the previous edit timestamp when there is one,
against the creation timestamp otherwise. -/
def on_message_edit_delta (before_created : Int) (before_edited : Option Int)
    (after_edited : Int) : Int :=
  match before_edited with
  | none => relativedelta_microseconds after_edited before_created
  | some e => relativedelta_microseconds after_edited e

/-- `Filtering.on_message_edit` (`filtering.py` lines 153-164): dispatch
the edited message with the computed delta. -/
def on_message_edit (cfg : FilterConf) (oracle : String → Bool)
    (deleteNotFound : Bool) (before_created : Int)
    (before_edited : Option Int) (after_edited : Int)
    (msg : FilterMessage) : List FilterAction :=
  filter_message cfg oracle deleteNotFound msg
    (some (on_message_edit_delta before_created before_edited after_edited))

/-- The first rule the loop would act on: first in declaration order among
the enabled, non-suppressed rules whose matcher reports a match. -/
def first_matching_rule (oracle : String → Bool) (delta : Option Int) :
    List FilterRule → Option FilterRule
  | [] => none
  | r :: rest =>
    if r.enabled then
      if suppress_check r.name delta then
        first_matching_rule oracle delta rest
      else if oracle r.name then some r
      else first_matching_rule oracle delta rest
    else first_matching_rule oracle delta rest

/-- The rule an action acts for, for the delete / notify / store /
schedule / mod-log effects; `eval`, `suppress` and `keyError` are not
effects. -/
def effect_rule : FilterAction → Option String
  | FilterAction.deleteMsg r => some r
  | FilterAction.notify r => some r
  | FilterAction.storePost r _ _ => some r
  | FilterAction.scheduleTask r _ _ => some r
  | FilterAction.modLog r => some r
  | _ => none

/-- The rules that take any delete / notify / store / schedule / mod-log
effect in an action trace. -/
def effect_rules (tr : List FilterAction) : List String :=
  tr.filterMap effect_rule

/-! ## Helper lemmas -/

theorem mk_append (a b : List Char) :
    String.mk a ++ String.mk b = String.mk (a ++ b) := rfl

theorem str_join_append (l₁ l₂ : List String) :
    str_join (l₁ ++ l₂) = str_join l₁ ++ str_join l₂ := by
  induction l₁ with
  | nil => simp [str_join, String.empty_append]
  | cons s rest ih => simp [str_join, ih, String.append_assoc]

theorem str_join_spoiler_split_fuel (fuel : Nat) :
    ∀ cs : List Char, str_join (spoiler_split_fuel fuel cs) = String.mk cs := by
  induction fuel with
  | zero =>
    intro cs
    simp [spoiler_split_fuel, str_join, String.append_empty]
  | succ n ih =>
    intro cs
    simp only [spoiler_split_fuel]
    cases h : spoiler_findMatch cs with
    | none => simp [str_join, String.append_empty]
    | some p =>
      obtain ⟨i, len⟩ := p
      simp [str_join, ih, mk_append, List.take_append_drop]

/-- The split-with-captured-delimiters reconstructs the original text. -/
theorem str_join_spoiler_split (cs : List Char) :
    str_join (spoiler_split cs) = String.mk cs :=
  str_join_spoiler_split_fuel cs.length cs

/-! ## Claims -/

/--
C2: the claim states that a `PendingDeletion` whose delete-at time lies in
the future is deleted at or after that time, never before it.  The code
refutes this: `wait_until` only sleeps when the delay exceeds one second,
so a record whose delete-at is half a second in the future (delete-at
`500000` µs, now `0`) is deleted immediately at instant `0`, strictly
before its delete-at time.
-/
theorem scheduled_deletion_fires_early :
    (0 : Int) < 500000
    ∧ scheduled_task_delete_time 500000 0 = 0
    ∧ scheduled_task_delete_time 500000 0 < 500000 := by
  refine ⟨by decide, by decide, by decide⟩

/--
C2 (amended): the deletion of a flagged message is performed at or after
its delete-at time whenever that time is more than one second in the
future when the timer starts; in every case the deletion fires no earlier
than one second before the delete-at time.
-/
theorem scheduled_deletion_time_lower_bound (delete_at now : Int) :
    (1000000 < delete_at - now →
      scheduled_task_delete_time delete_at now = delete_at)
    ∧ delete_at - 1000000 ≤ scheduled_task_delete_time delete_at now := by
  constructor
  · intro h
    simp only [scheduled_task_delete_time, wait_until_wake]
    rw [if_pos (by omega)]
    omega
  · simp only [scheduled_task_delete_time, wait_until_wake]
    split_ifs <;> omega

/-- Witness for `scheduled_deletion_time_lower_bound`: a record five
seconds in the future is deleted exactly at its delete-at time. -/
theorem scheduled_deletion_time_lower_bound_witness :
    scheduled_task_delete_time 5000000 0 = 5000000 :=
  (scheduled_deletion_time_lower_bound 5000000 0).1 (by decide)

/--
C3: startup recovery never reaches any record.  `filtering.py` line 4
binds the name `datetime` to the `datetime.datetime` class, so line 484
(`now = datetime.datetime.utcnow()`) raises
`AttributeError: type object 'datetime.datetime' has no attribute
'datetime'` unconditionally, before the fetched records are examined; no
elapsed record is deleted and no future record is re-registered.
-/
theorem reschedule_raises_attribute_error (records : List PendingDeletion)
    (now : Int) :
    reschedule_offensive_msg_deletion records now
      = Except.error (PyExc.attributeError "datetime" "datetime") := rfl

/--
C4: running the username check twice within the same 3-day window, with
the display name matching a watchlist pattern both times, emits exactly one
alert and performs exactly one cooldown-store write: the first call alerts
and stores the current timestamp, the second call finds that timestamp
within the last 3 days, emits nothing and leaves the store unchanged.
(`0 < t1` says the first check happens after the epoch, so the stored
timestamp is truthy.)
-/
theorem cooldown_double_check_single_alert (t1 t2 : Int)
    (m1 m2 : List String) (h0 : 0 < t1) (h12 : t1 ≤ t2)
    (hwin : t2 - t1 < DAYS_BETWEEN_ALERTS * 86400)
    (hm1 : m1 ≠ []) (hm2 : m2 ≠ []) :
    check_bad_words_in_name t1 m1 none = (true, some t1)
    ∧ check_bad_words_in_name t2 m2
        (check_bad_words_in_name t1 m1 none).2 = (false, some t1) := by
  have he1 : m1.isEmpty = false := by
    cases m1 with
    | nil => exact absurd rfl hm1
    | cons a as => rfl
  have he2 : m2.isEmpty = false := by
    cases m2 with
    | nil => exact absurd rfl hm2
    | cons a as => rfl
  have hfirst : check_bad_words_in_name t1 m1 none = (true, some t1) := by
    simp [check_bad_words_in_name, check_send_alert, he1]
  have hsend : check_send_alert t2 (some t1) = false := by
    simp only [DAYS_BETWEEN_ALERTS] at hwin
    simp only [check_send_alert, DAYS_BETWEEN_ALERTS]
    rw [if_neg (by omega), if_pos (by omega)]
  refine ⟨hfirst, ?_⟩
  rw [hfirst]
  simp [check_bad_words_in_name, he2, hsend]

/-- Witness for `cooldown_double_check_single_alert` at concrete inputs:
two matching checks at epoch-seconds 1000 and 2000. -/
theorem cooldown_double_check_single_alert_witness :
    check_bad_words_in_name 1000 ["bad"] none = (true, some 1000)
    ∧ check_bad_words_in_name 2000 ["bad"]
        (check_bad_words_in_name 1000 ["bad"] none).2 = (false, some 1000) :=
  cooldown_double_check_single_alert 1000 2000 ["bad"] ["bad"]
    (by decide) (by decide) (by decide) (by decide) (by decide)

/--
C9: `expand_spoilers` splits on the `||spoiler||` delimiter pattern and
returns exactly (all even-indexed segments in order) ++ (all odd-indexed
segments in order) ++ (the full original split-concatenation), the last
being the original text itself; in particular
`expand_spoilers("a||b||c") = "ac||b||a||b||c"`, in which the formerly
spoiler-wrapped `"b"` is visible to the watchlist matcher (which runs its
patterns directly on this expanded text).
-/
theorem expand_spoilers_spec :
    (∀ text : String,
      expand_spoilers text
        = str_join (slice_step2 (spoiler_split text.data))
          ++ str_join (slice_step2 ((spoiler_split text.data).drop 1))
          ++ str_join (spoiler_split text.data)
      ∧ str_join (spoiler_split text.data) = text)
    ∧ expand_spoilers "a||b||c" = "ac||b||a||b||c" := by
  constructor
  · intro text
    constructor
    · simp [expand_spoilers, str_join_append, String.append_assoc]
    · exact str_join_spoiler_split text.data
  · decide

/--
C6: the claim states that `_has_rich_embed` is true iff *some* embed is
rich and suspicious, and in particular that a later qualifying embed makes
it true even when an earlier rich embed looks auto-generated.  The code
refutes this: on a message whose first embed is a rich auto-generated link
preview (`url` present in the message text) and whose second embed is rich
with no `url`, the function returns `false` although the second embed
satisfies the claimed condition.
-/
theorem rich_embed_counterexample :
    has_rich_embed [Embed.mk "rich" (some "http://a.com"),
        Embed.mk "rich" none] "see http://a.com" = false
    ∧ ∃ e ∈ [Embed.mk "rich" (some "http://a.com"), Embed.mk "rich" none],
        e.type = "rich" ∧ e.url = none := by
  refine ⟨by decide, Embed.mk "rich" none, by decide, rfl, rfl⟩

/--
C6 (amended): `_has_rich_embed` is decided by the *first* embed of
`"rich"` type alone: it returns true iff such an embed exists and either
has no source URL or has one that does not appear among the URLs extracted
from the message text; embeds after the first rich one are never examined.
-/
theorem rich_embed_first_rich_decides (content : String)
    (embeds : List Embed) :
    has_rich_embed embeds content
      = match embeds.find? (fun e => e.type == "rich") with
        | none => false
        | some e =>
          match e.url with
          | none => true
          | some u => !(url_findall content.data).contains u := by
  induction embeds with
  | nil => rfl
  | cons e rest ih =>
    cases h : (e.type == "rich") with
    | true =>
      have hf : (e :: rest).find? (fun x => x.type == "rich") = some e := by
        apply List.find?_cons_of_pos
        exact h
      rw [hf]
      simp only [has_rich_embed]
      rw [if_pos h]
      cases hu : e.url with
      | none => rfl
      | some u =>
        cases hc : (url_findall content.data).contains u <;> simp [hc]
    | false =>
      have hf : (e :: rest).find? (fun x => x.type == "rich")
          = rest.find? (fun x => x.type == "rich") := by
        apply List.find?_cons_of_neg
        simp [h]
      rw [hf]
      simp only [has_rich_embed]
      rw [if_neg (by simp [h])]
      exact ih

/--
C5: the claim states that each distinct invite code in the text is
resolved via the invite-lookup call at most once, regardless of whether the
code's guild is whitelisted.  The code refutes this: a code is only
recorded in `invite_data` when its guild is *not* whitelisted, so a
duplicated code resolving to a whitelisted guild (id 1, whitelist `[1]`)
is sent to the lookup endpoint once per occurrence — twice here.
-/
theorem invite_duplicate_lookup_counterexample :
    ((has_invites (fun _ => ⟨some ⟨1, "g", "h"⟩, 10, 5⟩) [1]
        ["abc", "abc"]).2).count "abc" = 2 := by
  decide

/-- `_has_invites` loop step: a code already recorded in `invite_data` is
skipped without a lookup. -/
theorem invite_go_step_skip {lookup : String → InviteResponse}
    {whitelist : List Int} {d : String} {rest : List String}
    {acc : List (String × InviteData)}
    (h : acc.any (fun p => p.1 == d) = true) :
    has_invites_go lookup whitelist (d :: rest) acc
      = has_invites_go lookup whitelist rest acc := by
  simp [has_invites_go, h]

/-- `_has_invites` loop step: an unresolvable code ends the scan with the
bare-`True` sentinel after its single lookup. -/
theorem invite_go_step_invalid {lookup : String → InviteResponse}
    {whitelist : List Int} {d : String} {rest : List String}
    {acc : List (String × InviteData)}
    (h : acc.any (fun p => p.1 == d) = false)
    (hresp : (lookup d).guild = none) :
    has_invites_go lookup whitelist (d :: rest) acc
      = (InviteScanResult.invalid, [d]) := by
  simp [has_invites_go, h, hresp]

/-- `_has_invites` loop step: a code resolving to a whitelisted guild is
looked up but adds no `invite_data` entry. -/
theorem invite_go_step_whitelisted {lookup : String → InviteResponse}
    {whitelist : List Int} {d : String} {rest : List String}
    {acc : List (String × InviteData)} {gd : InviteGuild}
    (h : acc.any (fun p => p.1 == d) = false)
    (hresp : (lookup d).guild = some gd)
    (hwd : whitelist.contains gd.id = true) :
    has_invites_go lookup whitelist (d :: rest) acc
      = ((has_invites_go lookup whitelist rest acc).1,
         d :: (has_invites_go lookup whitelist rest acc).2) := by
  have hwd' : gd.id ∈ whitelist := by simpa using hwd
  simp [has_invites_go, h, hresp, hwd']

/-- `_has_invites` loop step: a code resolving to a non-whitelisted guild
is looked up and appended to `invite_data`. -/
theorem invite_go_step_record {lookup : String → InviteResponse}
    {whitelist : List Int} {d : String} {rest : List String}
    {acc : List (String × InviteData)} {gd : InviteGuild}
    (h : acc.any (fun p => p.1 == d) = false)
    (hresp : (lookup d).guild = some gd)
    (hwd : whitelist.contains gd.id = false) :
    has_invites_go lookup whitelist (d :: rest) acc
      = ((has_invites_go lookup whitelist rest (acc ++ [(d,
            ⟨gd.name, guild_icon_url gd.id gd.icon,
             (lookup d).approximate_member_count,
             (lookup d).approximate_presence_count⟩)])).1,
         d :: (has_invites_go lookup whitelist rest (acc ++ [(d,
            ⟨gd.name, guild_icon_url gd.id gd.icon,
             (lookup d).approximate_member_count,
             (lookup d).approximate_presence_count⟩)])).2) := by
  have hwd' : gd.id ∉ whitelist := by simpa using hwd
  simp [has_invites_go, h, hresp, hwd']

/-- Invariant of the `_has_invites` loop: a code `c` resolving to a
non-whitelisted guild is looked up never when it is already a key of the
accumulated `invite_data`, and at most once otherwise. -/
theorem invite_go_count_le_one (lookup : String → InviteResponse)
    (whitelist : List Int) (c : String) (g : InviteGuild)
    (hg : (lookup c).guild = some g)
    (hw : whitelist.contains g.id = false) :
    ∀ (codes : List String) (acc : List (String × InviteData)),
      (acc.any (fun p => p.1 == c) = true →
        ((has_invites_go lookup whitelist codes acc).2).count c = 0)
      ∧ (acc.any (fun p => p.1 == c) = false →
        ((has_invites_go lookup whitelist codes acc).2).count c ≤ 1) := by
  intro codes
  induction codes with
  | nil => intro acc; simp [has_invites_go]
  | cons d rest ih =>
    intro acc
    cases hacc : acc.any (fun p => p.1 == d) with
    | true =>
      rw [invite_go_step_skip hacc]
      exact ih acc
    | false =>
      cases hresp : (lookup d).guild with
      | none =>
        rw [invite_go_step_invalid hacc hresp]
        by_cases hdc : d = c
        · subst hdc
          refine ⟨fun hmem => ?_, fun _ => ?_⟩
          · rw [hacc] at hmem; cases hmem
          · rw [List.count_cons_self]; simp
        · refine ⟨fun _ => ?_, fun _ => ?_⟩ <;>
            simp [List.count_cons_of_ne (Ne.symm hdc)]
      | some gd =>
        by_cases hdc : d = c
        · subst hdc
          rw [hg] at hresp
          injection hresp with hgd
          subst hgd
          rw [invite_go_step_record hacc hg hw]
          refine ⟨fun hmem => ?_, fun _ => ?_⟩
          · rw [hacc] at hmem; cases hmem
          · have h0 := (ih (acc ++ [(d,
              ⟨g.name, guild_icon_url g.id g.icon,
               (lookup d).approximate_member_count,
               (lookup d).approximate_presence_count⟩)])).1 (by simp)
            rw [List.count_cons_self, h0]
        · cases hwd : whitelist.contains gd.id with
          | true =>
            rw [invite_go_step_whitelisted hacc hresp hwd]
            have hr := ih acc
            refine ⟨fun hmem => ?_, fun hmem => ?_⟩ <;>
              rw [List.count_cons_of_ne (Ne.symm hdc)]
            · exact hr.1 hmem
            · exact hr.2 hmem
          | false =>
            rw [invite_go_step_record hacc hresp hwd]
            have hr := ih (acc ++ [(d,
              ⟨gd.name, guild_icon_url gd.id gd.icon,
               (lookup d).approximate_member_count,
               (lookup d).approximate_presence_count⟩)])
            refine ⟨fun hmem => ?_, fun hmem => ?_⟩ <;>
              rw [List.count_cons_of_ne (Ne.symm hdc)]
            · exact hr.1 (by simp [List.any_append, hmem])
            · exact hr.2 (by simp [List.any_append, hmem, hdc])

/--
C5 (amended): a code whose resolution yields a non-whitelisted guild is
sent to the invite-lookup endpoint at most once per message, however often
it occurs in the text; only codes resolving to whitelisted guilds are
re-resolved at each occurrence, and an unresolvable code ends the scan at
its first lookup.
-/
theorem invite_nonwhitelisted_lookup_once (lookup : String → InviteResponse)
    (whitelist : List Int) (codes : List String) (c : String)
    (g : InviteGuild) (hg : (lookup c).guild = some g)
    (hw : whitelist.contains g.id = false) :
    ((has_invites lookup whitelist codes).2).count c ≤ 1 :=
  (invite_go_count_le_one lookup whitelist c g hg hw codes []).2 rfl

/-- Witness for `invite_nonwhitelisted_lookup_once`: a thrice-repeated
code resolving to a non-whitelisted guild is looked up at most once. -/
theorem invite_nonwhitelisted_lookup_once_witness :
    ((has_invites (fun _ => ⟨some ⟨2, "g", "h"⟩, 10, 5⟩) []
        ["abc", "abc", "abc"]).2).count "abc" ≤ 1 :=
  invite_nonwhitelisted_lookup_once (fun _ => ⟨some ⟨2, "g", "h"⟩, 10, 5⟩)
    [] ["abc", "abc", "abc"] "abc" ⟨2, "g", "h"⟩ rfl rfl

/-! ## Dispatch-engine helper lemmas -/

/-- Every action emitted by the matched-rule body is tagged with that
rule's name (or is no effect at all). -/
theorem match_actions_effects (r : FilterRule) (msg : FilterMessage)
    (dnf : Bool) (days : Int) :
    ∀ a ∈ match_actions r msg dnf days,
      effect_rule a = none ∨ effect_rule a = some r.name := by
  intro a ha
  rcases r with ⟨name, en, ft, co, un, sd⟩
  rcases un with _ | ub <;> rcases sd with _ | sb <;>
    simp only [match_actions, notify_actions, schedule_actions] at ha <;>
    split_ifs at ha <;>
    (try simp only [List.cons_append, List.nil_append,
      List.append_nil] at ha) <;>
    fin_cases ha <;> simp [effect_rule]

/-- The matched-rule body never emits a `suppress` action. -/
theorem match_actions_no_suppress (r : FilterRule) (msg : FilterMessage)
    (dnf : Bool) (days : Int) (n : String) :
    FilterAction.suppress n ∉ match_actions r msg dnf days := by
  rcases r with ⟨name, en, ft, co, un, sd⟩
  rcases un with _ | ub <;> rcases sd with _ | sb <;>
    simp only [match_actions, notify_actions, schedule_actions] <;>
    split_ifs <;> simp

/-- Loop step: a disabled rule is skipped without a trace. -/
theorem loop_step_disabled {oracle : String → Bool} {dnf : Bool}
    {msg : FilterMessage} {delta : Option Int} {days : Int}
    {r : FilterRule} {rest : List FilterRule} (h : r.enabled = false) :
    filter_rules_loop oracle dnf msg delta days (r :: rest)
      = filter_rules_loop oracle dnf msg delta days rest := by
  simp [filter_rules_loop, h]

/-- Loop step: the double-trigger check skips the rule with a `suppress`
trace entry. -/
theorem loop_step_suppressed {oracle : String → Bool} {dnf : Bool}
    {msg : FilterMessage} {delta : Option Int} {days : Int}
    {r : FilterRule} {rest : List FilterRule} (hen : r.enabled = true)
    (hs : suppress_check r.name delta = true) :
    filter_rules_loop oracle dnf msg delta days (r :: rest)
      = FilterAction.suppress r.name
        :: filter_rules_loop oracle dnf msg delta days rest := by
  simp [filter_rules_loop, hen, hs]

/-- Loop step: a matching rule runs its body and the loop stops. -/
theorem loop_step_matched {oracle : String → Bool} {dnf : Bool}
    {msg : FilterMessage} {delta : Option Int} {days : Int}
    {r : FilterRule} {rest : List FilterRule} (hen : r.enabled = true)
    (hs : suppress_check r.name delta = false) (ho : oracle r.name = true) :
    filter_rules_loop oracle dnf msg delta days (r :: rest)
      = FilterAction.eval r.name :: match_actions r msg dnf days := by
  simp [filter_rules_loop, hen, hs, ho]

/-- Loop step: a non-matching rule leaves only its `eval` trace entry. -/
theorem loop_step_no_match {oracle : String → Bool} {dnf : Bool}
    {msg : FilterMessage} {delta : Option Int} {days : Int}
    {r : FilterRule} {rest : List FilterRule} (hen : r.enabled = true)
    (hs : suppress_check r.name delta = false) (ho : oracle r.name = false) :
    filter_rules_loop oracle dnf msg delta days (r :: rest)
      = FilterAction.eval r.name
        :: filter_rules_loop oracle dnf msg delta days rest := by
  simp [filter_rules_loop, hen, hs, ho]

/-- Every delete / notify / store / schedule / mod-log effect the rule
loop performs belongs to the first enabled, non-suppressed rule whose
matcher reports a match. -/
theorem loop_effects_from_first_match (oracle : String → Bool) (dnf : Bool)
    (msg : FilterMessage) (delta : Option Int) (days : Int) :
    ∀ (rules : List FilterRule) (s : String),
      s ∈ effect_rules (filter_rules_loop oracle dnf msg delta days rules) →
      ∃ r, first_matching_rule oracle delta rules = some r ∧ r.name = s := by
  intro rules
  induction rules with
  | nil =>
    intro s hs
    simp [filter_rules_loop, effect_rules] at hs
  | cons r rest ih =>
    intro s hs
    cases hen : r.enabled with
    | false =>
      rw [loop_step_disabled hen] at hs
      rw [first_matching_rule, if_neg (by simp [hen])]
      exact ih s hs
    | true =>
      cases hsup : suppress_check r.name delta with
      | true =>
        rw [loop_step_suppressed hen hsup] at hs
        rw [first_matching_rule, if_pos hen, if_pos hsup]
        exact ih s (by simpa [effect_rules, effect_rule] using hs)
      | false =>
        cases ho : oracle r.name with
        | true =>
          rw [loop_step_matched hen hsup ho] at hs
          refine ⟨r, ?_, ?_⟩
          · rw [first_matching_rule, if_pos hen,
              if_neg (by simp [hsup]), if_pos ho]
          · rw [effect_rules] at hs
            simp only [List.filterMap_cons, effect_rule] at hs
            rcases List.mem_filterMap.mp hs with ⟨a, ha, he⟩
            rcases match_actions_effects r msg dnf days a ha with h0 | h0
            · rw [h0] at he; cases he
            · rw [h0] at he; exact Option.some.inj he
        | false =>
          rw [loop_step_no_match hen hsup ho] at hs
          rw [first_matching_rule, if_pos hen,
            if_neg (by simp [hsup]), if_neg (by simp [ho])]
          exact ih s (by simpa [effect_rules, effect_rule] using hs)

/-- When the one `msg.delete()` raises `NotFound`, the matched hard-filter
body is the bare delete attempt. -/
theorem match_actions_filter_notfound (r : FilterRule) (msg : FilterMessage)
    (days : Int) (hft : r.ftype = "filter")
    (hpriv : msg.channel_is_private = false) :
    match_actions r msg true days = [FilterAction.deleteMsg r.name] := by
  simp [match_actions, hft, hpriv]

/-- With a `NotFound`-raising delete, the rule loop on any rule list whose
first matching rule is a hard filter ends at the delete attempt, with only
`eval` / `suppress` trace entries before it. -/
theorem loop_notfound_stops (oracle : String → Bool) (msg : FilterMessage)
    (delta : Option Int) (days : Int)
    (hpriv : msg.channel_is_private = false) :
    ∀ (rules : List FilterRule) (r : FilterRule),
      first_matching_rule oracle delta rules = some r →
      r.ftype = "filter" →
      ∃ pre, filter_rules_loop oracle true msg delta days rules
          = pre ++ [FilterAction.deleteMsg r.name]
        ∧ ∀ a ∈ pre, (∃ n, a = FilterAction.eval n)
            ∨ (∃ n, a = FilterAction.suppress n) := by
  intro rules
  induction rules with
  | nil => intro r hfirst; cases hfirst
  | cons r0 rest ih =>
    intro r hfirst hft
    cases hen : r0.enabled with
    | false =>
      rw [first_matching_rule, if_neg (by simp [hen])] at hfirst
      rcases ih r hfirst hft with ⟨pre, heq, hpre⟩
      exact ⟨pre, by rw [loop_step_disabled hen, heq], hpre⟩
    | true =>
      cases hsup : suppress_check r0.name delta with
      | true =>
        rw [first_matching_rule, if_pos hen, if_pos hsup] at hfirst
        rcases ih r hfirst hft with ⟨pre, heq, hpre⟩
        refine ⟨FilterAction.suppress r0.name :: pre, ?_, ?_⟩
        · rw [loop_step_suppressed hen hsup, heq]; rfl
        · intro a ha
          rcases List.mem_cons.mp ha with h | h
          · exact Or.inr ⟨r0.name, h⟩
          · exact hpre a h
      | false =>
        cases ho : oracle r0.name with
        | true =>
          rw [first_matching_rule, if_pos hen,
            if_neg (by simp [hsup]), if_pos ho] at hfirst
          injection hfirst with hr0
          have hft0 : r0.ftype = "filter" := by rw [hr0]; exact hft
          refine ⟨[FilterAction.eval r.name], ?_, ?_⟩
          · rw [loop_step_matched hen hsup ho,
              match_actions_filter_notfound r0 msg days hft0 hpriv, hr0]
            rfl
          · intro a ha
            rw [List.mem_singleton] at ha
            exact Or.inl ⟨r.name, ha⟩
        | false =>
          rw [first_matching_rule, if_pos hen,
            if_neg (by simp [hsup]), if_neg (by simp [ho])] at hfirst
          rcases ih r hfirst hft with ⟨pre, heq, hpre⟩
          refine ⟨FilterAction.eval r0.name :: pre, ?_, ?_⟩
          · rw [loop_step_no_match hen hsup ho, heq]; rfl
          · intro a ha
            rcases List.mem_cons.mp ha with h | h
            · exact Or.inl ⟨r0.name, h⟩
            · exact hpre a h

/-- With `delta = None` the double-trigger check never fires. -/
theorem suppress_check_none (name : String) :
    suppress_check name none = false := by
  simp [suppress_check]

/-- With `delta = None` the rule loop emits no `suppress` action. -/
theorem loop_no_suppress_with_none (oracle : String → Bool) (dnf : Bool)
    (msg : FilterMessage) (days : Int) :
    ∀ (rules : List FilterRule) (n : String),
      FilterAction.suppress n
        ∉ filter_rules_loop oracle dnf msg none days rules := by
  intro rules
  induction rules with
  | nil => intro n; simp [filter_rules_loop]
  | cons r rest ih =>
    intro n
    cases hen : r.enabled with
    | false => rw [loop_step_disabled hen]; exact ih n
    | true =>
      cases ho : oracle r.name with
      | true =>
        rw [loop_step_matched hen (suppress_check_none r.name) ho]
        intro hmem
        rcases List.mem_cons.mp hmem with h | h
        · cases h
        · exact match_actions_no_suppress r msg dnf days n h
      | false =>
        rw [loop_step_no_match hen (suppress_check_none r.name) ho]
        intro hmem
        rcases List.mem_cons.mp hmem with h | h
        · cases h
        · exact ih n h

/-- An action performed by the loop on a rule suffix is also performed on
the loop extended with a preceding non-matching, non-suppressed rule. -/
theorem mem_loop_cons (oracle : String → Bool) (dnf : Bool)
    (msg : FilterMessage) (delta : Option Int) (days : Int)
    (r : FilterRule) (rest : List FilterRule) (a : FilterAction)
    (ho : oracle r.name = false) (hs : suppress_check r.name delta = false)
    (h : a ∈ filter_rules_loop oracle dnf msg delta days rest) :
    a ∈ filter_rules_loop oracle dnf msg delta days (r :: rest) := by
  cases hen : r.enabled with
  | false => rw [loop_step_disabled hen]; exact h
  | true => rw [loop_step_no_match hen hs ho]; exact List.mem_cons_of_mem _ h

/-! ## Dispatch-engine claims -/

/--
C1: for every non-exempt message or edit event, all delete / notify /
store / schedule / mod-log effects performed by `_filter_message` belong to
one single rule — the first rule in declaration order among the enabled,
non-suppressed rules whose matcher reports a match — so when two enabled
rules would both match, only the first-declared one acts, and an exempt
message produces no effect at all.
-/
theorem first_match_wins (cfg : FilterConf) (oracle : String → Bool)
    (dnf : Bool) (msg : FilterMessage) (delta : Option Int) (s : String)
    (hs : s ∈ effect_rules (filter_message cfg oracle dnf msg delta)) :
    ∃ r, first_matching_rule oracle delta (filters cfg) = some r
      ∧ r.name = s := by
  unfold filter_message at hs
  by_cases hcond : filter_message_cond cfg msg = true
  · rw [if_pos hcond] at hs
    exact loop_effects_from_first_match oracle dnf msg delta
      cfg.offensive_msg_delete_days (filters cfg) s hs
  · rw [if_neg hcond] at hs
    simp [effect_rules] at hs

/-- Witness for `first_match_wins`: with every rule enabled and both the
zalgo and the words matcher reporting a match, the sole acting rule is the
first-declared `filter_zalgo`. -/
theorem first_match_wins_witness :
    ∃ r, first_matching_rule
        (fun n => n == "filter_zalgo" || n == "watch_words") none
        (filters ⟨[], [], true, true, true, true, true, true, true,
          false, false, false, 7⟩) = some r
      ∧ r.name = "filter_zalgo" :=
  first_match_wins
    ⟨[], [], true, true, true, true, true, true, true,
      false, false, false, 7⟩
    (fun n => n == "filter_zalgo" || n == "watch_words") false
    ⟨1, 2, false, 0, ⟨false, [], false⟩⟩ none "filter_zalgo" (by decide)

/--
C7: when the first matching rule is a hard filter, the channel is not
private, and the `msg.delete()` call raises `NotFound` (the message is
already gone), `_filter_message` swallows the error and returns at once:
its whole trace is the evaluations up to the match followed by the delete
attempt — no further rule is evaluated, no user notification is sent and
no moderation-log entry is emitted for the event.
-/
theorem hard_filter_notfound_stops (cfg : FilterConf)
    (oracle : String → Bool) (msg : FilterMessage) (delta : Option Int)
    (r : FilterRule) (hpriv : msg.channel_is_private = false)
    (hcond : filter_message_cond cfg msg = true)
    (hfirst : first_matching_rule oracle delta (filters cfg) = some r)
    (htype : r.ftype = "filter") :
    ∃ pre, filter_message cfg oracle true msg delta
        = pre ++ [FilterAction.deleteMsg r.name]
      ∧ ∀ a ∈ pre, (∃ n, a = FilterAction.eval n)
          ∨ (∃ n, a = FilterAction.suppress n) := by
  unfold filter_message
  rw [if_pos hcond]
  exact loop_notfound_stops oracle msg delta cfg.offensive_msg_delete_days
    hpriv (filters cfg) r hfirst htype

/-- Witness for `hard_filter_notfound_stops`: a zalgo match whose deletion
races a concurrent delete leaves just the one evaluation and the swallowed
delete attempt. -/
theorem hard_filter_notfound_stops_witness :
    ∃ pre, filter_message
        ⟨[], [], true, true, true, true, true, true, true,
          false, false, false, 7⟩
        (fun n => n == "filter_zalgo") true
        ⟨1, 2, false, 0, ⟨false, [], false⟩⟩ none
        = pre ++ [FilterAction.deleteMsg "filter_zalgo"]
      ∧ ∀ a ∈ pre, (∃ n, a = FilterAction.eval n)
          ∨ (∃ n, a = FilterAction.suppress n) :=
  hard_filter_notfound_stops
    ⟨[], [], true, true, true, true, true, true, true,
      false, false, false, 7⟩
    (fun n => n == "filter_zalgo")
    ⟨1, 2, false, 0, ⟨false, [], false⟩⟩ none
    ⟨"filter_zalgo", true, "filter", true, some false, some false⟩
    rfl rfl (by decide) rfl

/--
C8: the claim states that the rich-embed rule is skipped exactly when the
computed elapsed time is below 100 microseconds, and that edits whose true
elapsed time is at or above the threshold are evaluated.  The code refutes
the second half: `on_message_edit` takes `relativedelta(...).microseconds`,
the *microseconds component* of the difference rather than the total, so an
edit made exactly 5 seconds after creation (true elapsed 5 000 000 µs ≥
100 µs) yields `delta = 0` and the enabled rich-embed rule is suppressed,
not evaluated.
-/
theorem rich_embed_edit_skip_counterexample :
    on_message_edit_delta 0 none 5000000 = 0
    ∧ (100 : Int) ≤ 5000000
    ∧ FilterAction.suppress "watch_rich_embeds"
        ∈ on_message_edit
            ⟨[], [], true, true, true, true, true, true, true,
              false, false, false, 7⟩
            (fun n => n == "watch_rich_embeds") false 0 none 5000000
            ⟨1, 2, false, 0, ⟨false, [], false⟩⟩
    ∧ FilterAction.eval "watch_rich_embeds"
        ∉ on_message_edit
            ⟨[], [], true, true, true, true, true, true, true,
              false, false, false, 7⟩
            (fun n => n == "watch_rich_embeds") false 0 none 5000000
            ⟨1, 2, false, 0, ⟨false, [], false⟩⟩ := by
  refine ⟨rfl, by decide, by decide, by decide⟩

/--
C8 (amended): the edit delta is the microseconds *component*
`(after − previous) mod 10⁶` of the relativedelta between the edit
timestamp and the previous edit (or creation) timestamp, not the total
elapsed time; when the dispatch loop reaches an enabled rich-embed rule it
skips it exactly when this component is below 100 — so an edit whose true
elapsed time is at or above 100 µs is still skipped whenever the component
is below 100 (e.g. any whole-second elapsed time).
-/
theorem edit_delta_microsecond_component (bcreated : Int)
    (bedited : Option Int) (aedited : Int) (oracle : String → Bool)
    (dnf : Bool) (msg : FilterMessage) (days : Int) (r : FilterRule)
    (rest : List FilterRule) (hname : r.name = "watch_rich_embeds")
    (hen : r.enabled = true) :
    on_message_edit_delta bcreated bedited aedited
      = (aedited - bedited.getD bcreated) % 1000000
    ∧ (on_message_edit_delta bcreated bedited aedited < 100 →
        filter_rules_loop oracle dnf msg
            (some (on_message_edit_delta bcreated bedited aedited)) days
            (r :: rest)
          = FilterAction.suppress r.name
            :: filter_rules_loop oracle dnf msg
                (some (on_message_edit_delta bcreated bedited aedited))
                days rest)
    ∧ (100 ≤ on_message_edit_delta bcreated bedited aedited →
        filter_rules_loop oracle dnf msg
            (some (on_message_edit_delta bcreated bedited aedited)) days
            (r :: rest)
          = FilterAction.eval r.name
            :: (if oracle r.name then match_actions r msg dnf days
                else filter_rules_loop oracle dnf msg
                  (some (on_message_edit_delta bcreated bedited aedited))
                  days rest)) := by
  refine ⟨?_, ?_, ?_⟩
  · cases bedited <;> rfl
  · intro h
    apply loop_step_suppressed hen
    simp [suppress_check, hname, h]
  · intro h
    have hs : suppress_check r.name
        (some (on_message_edit_delta bcreated bedited aedited)) = false := by
      simp only [suppress_check, hname]
      simp
      omega
    cases ho : oracle r.name with
    | true => rw [loop_step_matched hen hs ho]; simp
    | false => rw [loop_step_no_match hen hs ho]; simp

/-- Witness for `edit_delta_microsecond_component`: an edit exactly five
seconds after creation has delta component 0 and the enabled rich-embed
rule is suppressed. -/
theorem edit_delta_microsecond_component_witness :
    filter_rules_loop (fun _ => false) false
        ⟨1, 2, false, 0, ⟨false, [], false⟩⟩
        (some (on_message_edit_delta 0 none 5000000)) 7
        [⟨"watch_rich_embeds", true, "watchlist", false, none, some false⟩]
      = FilterAction.suppress "watch_rich_embeds"
        :: filter_rules_loop (fun _ => false) false
            ⟨1, 2, false, 0, ⟨false, [], false⟩⟩
            (some (on_message_edit_delta 0 none 5000000)) 7 [] :=
  (edit_delta_microsecond_component 0 none 5000000 (fun _ => false) false
    ⟨1, 2, false, 0, ⟨false, [], false⟩⟩ 7
    ⟨"watch_rich_embeds", true, "watchlist", false, none, some false⟩ []
    rfl rfl).2.1 (by decide)

/--
C10: for newly created (non-edit) messages `on_message` dispatches with
`delta = None`, the suppression branch requires a non-`None` delta, so no
`suppress` action ever occurs; and on a non-exempt message with the
rich-embed rule enabled and no earlier-declared rule matching, the
rich-embed rule is evaluated — regardless of timing.
-/
theorem new_message_rich_embed_always_evaluated (cfg : FilterConf)
    (oracle : String → Bool) (dnf : Bool) (msg : FilterMessage)
    (hcond : filter_message_cond cfg msg = true)
    (hen : cfg.watch_rich_embeds = true)
    (h1 : oracle "filter_zalgo" = false)
    (h2 : oracle "filter_invites" = false)
    (h3 : oracle "filter_domains" = false)
    (h4 : oracle "watch_regex" = false) :
    (∀ n, FilterAction.suppress n ∉ on_message cfg oracle dnf msg)
    ∧ FilterAction.eval "watch_rich_embeds"
        ∈ on_message cfg oracle dnf msg := by
  constructor
  · intro n
    unfold on_message filter_message
    rw [if_pos hcond]
    exact loop_no_suppress_with_none oracle dnf msg
      cfg.offensive_msg_delete_days (filters cfg) n
  · unfold on_message filter_message
    rw [if_pos hcond]
    unfold filters
    apply mem_loop_cons _ _ _ _ _ _ _ _ h1 (suppress_check_none _)
    apply mem_loop_cons _ _ _ _ _ _ _ _ h2 (suppress_check_none _)
    apply mem_loop_cons _ _ _ _ _ _ _ _ h3 (suppress_check_none _)
    apply mem_loop_cons _ _ _ _ _ _ _ _ h4 (suppress_check_none _)
    cases ho : oracle "watch_rich_embeds" with
    | true =>
      rw [loop_step_matched hen (suppress_check_none _) ho]
      exact List.mem_cons_self _ _
    | false =>
      rw [loop_step_no_match hen (suppress_check_none _) ho]
      exact List.mem_cons_self _ _

/-- Witness for `new_message_rich_embed_always_evaluated`: a new message
on which no matcher reports a match still has its rich-embed rule
evaluated. -/
theorem new_message_rich_embed_always_evaluated_witness :
    FilterAction.eval "watch_rich_embeds"
      ∈ on_message
          ⟨[], [], true, true, true, true, true, true, true,
            false, false, false, 7⟩
          (fun _ => false) false ⟨1, 2, false, 0, ⟨false, [], false⟩⟩ :=
  (new_message_rich_embed_always_evaluated
    ⟨[], [], true, true, true, true, true, true, true,
      false, false, false, 7⟩
    (fun _ => false) false ⟨1, 2, false, 0, ⟨false, [], false⟩⟩
    (by decide) rfl rfl rfl rfl rfl).2

end BotFiltering
